import Mathlib

/-!
Verification development for the `httpx_html` package
(`src/httpx_html/parse.py`, with `src/httpx_html/session.py` as context).

The Python code is shallowly embedded: Python `str` values become `List Char`,
`bytes` become `List Nat`, attribute dictionaries become structure fields,
`None` becomes `Option.none`, and raised exceptions become `Except` errors.
External collaborators (the lxml/pyquery tree and selector engine, the w3lib
encoding sniffer, the codecs machinery) are represented by their outputs:
a document carries the selector-engine scan results as explicit lists, and
codec operations are opaque parameters.

The standard library functions `urllib.parse.urlparse` / `urlunparse` /
`urljoin` used by `BaseParser._make_absolute` and `BaseParser.base_url` are
not part of this repository; they are modelled from the spec ("standard
relative-URL resolution rules ... identical to RFC 3986 §5") following the
CPython implementation of that standard, transcribed function by function.
-/

namespace HttpxHtml

/-- Python `str` modelled as an explicit list of characters. -/
abbrev PyStr := List Char

/-- Python `bytes` modelled as a list of byte values. -/
abbrev PyBytes := List Nat

/-- Python `str.lower` on one character (ASCII range; the inputs this code
lowercases are ASCII attribute values and URL schemes). -/
def pyLower (c : Char) : Char :=
  if 65 ≤ c.toNat ∧ c.toNat ≤ 90 then Char.ofNat (c.toNat + 32) else c

/-- Python `str.lower` over a whole string. -/
def lowerStr (s : PyStr) : PyStr := s.map pyLower

/-- Python substring test `needle in hay` for strings. -/
def containsSub (needle : PyStr) : PyStr → Bool
  | [] => needle.isEmpty
  | c :: rest => needle.isPrefixOf (c :: rest) || containsSub needle rest

/-- Characters treated as whitespace by Python `str.strip()` (ASCII range). -/
def isPySpace (c : Char) : Bool :=
  c == ' ' || c == '\t' || c == '\n' || c == '\r' || c.toNat == 11 || c.toNat == 12

/-- Python `str.strip()` with no argument: drop whitespace from both ends. -/
def pyStrip (l : PyStr) : PyStr :=
  ((l.dropWhile isPySpace).reverse.dropWhile isPySpace).reverse

/-- Python `str.split(sep, 1)` for a one-character separator: split at the
first occurrence; when the separator is absent return the string unchanged
with an empty second component. -/
def splitOnceChar (d : Char) (l : PyStr) : PyStr × PyStr :=
  match l.dropWhile (fun c => c != d) with
  | [] => (l, [])
  | _ :: rest => (l.takeWhile (fun c => c != d), rest)

/-- Truthiness of an optional Python string: `None` and `''` are falsy. -/
def truthyStr : Option PyStr → Bool
  | none => false
  | some s => !s.isEmpty

/-- Truthiness of an optional Python bytes value: `None` and `b''` are falsy. -/
def truthyBytes : Option PyBytes → Bool
  | none => false
  | some b => !b.isEmpty

/-!
### Model of `urllib.parse`

Modelled from the spec: `BaseParser._make_absolute` and `BaseParser.base_url`
delegate URL parsing, reconstruction and relative resolution to the Python
standard library (`urlparse`, `urlunparse`, `urljoin`), an external
collaborator whose contract the spec describes as "standard relative-URL
resolution rules ... identical to RFC 3986 §5".  The definitions below
transcribe the CPython implementation of that contract.  The IPv6-bracket
and netloc normalization checks of `urlsplit` (which reject exotic inputs
with `ValueError`) are not modelled; every input in this development is
bracket-free ASCII.
-/

/-- ASCII letter test, the conjunction `url[0].isascii() and url[0].isalpha()`
used by the scheme-detection step. -/
def isAsciiAlpha (c : Char) : Bool :=
  decide ((65 ≤ c.toNat ∧ c.toNat ≤ 90) ∨ (97 ≤ c.toNat ∧ c.toNat ≤ 122))

/-- Membership of `urllib.parse.scheme_chars`
(ASCII letters, ASCII digits, `+`, `-` and `.`). -/
def isSchemeChar (c : Char) : Bool :=
  isAsciiAlpha c || decide (48 ≤ c.toNat ∧ c.toNat ≤ 57) || c == '+' || c == '-' || c == '.'

/-- Characters removed everywhere from a URL before splitting
(`_UNSAFE_URL_BYTES_TO_REMOVE`: tab, carriage return, newline). -/
def isUnsafeUrlChar (c : Char) : Bool := c == '\t' || c == '\r' || c == '\n'

/-- Characters stripped from the ends of a URL or scheme before splitting
(`_WHATWG_C0_CONTROL_OR_SPACE`). -/
def isC0OrSpace (c : Char) : Bool := decide (c.toNat ≤ 32)

/-- Removal of the unsafe URL bytes. -/
def removeUnsafe (l : PyStr) : PyStr := l.filter (fun c => !isUnsafeUrlChar c)

/-- Delimiters ending the network-location part (`_splitnetloc`). -/
def isNetlocDelim (c : Char) : Bool := c == '/' || c == '?' || c == '#'

/-- Result record of `urlsplit`. -/
structure SplitResult where
  scheme : PyStr
  netloc : PyStr
  path : PyStr
  query : PyStr
  fragment : PyStr
deriving Repr, DecidableEq

/-- Result record of `urlparse`. -/
structure ParseResult where
  scheme : PyStr
  netloc : PyStr
  path : PyStr
  params : PyStr
  query : PyStr
  fragment : PyStr
deriving Repr, DecidableEq

/-- Scheme-detection step of `urlsplit`: when the URL has the shape
`scheme:rest` with the first character an ASCII letter and every character
before the first colon a scheme character, return the raw scheme text and
the rest after the colon. -/
def detectScheme (url : PyStr) : Option (PyStr × PyStr) :=
  let pre := url.takeWhile (fun c => c != ':')
  match url.dropWhile (fun c => c != ':') with
  | [] => none
  | _ :: rest =>
    if pre ≠ [] ∧ isAsciiAlpha pre.headI ∧ pre.all isSchemeChar then some (pre, rest)
    else none

/-- Cleanup of the URL argument at the top of `urlsplit`: strip C0 controls
and spaces from the front, then remove the unsafe bytes everywhere. -/
def cleanUrl (url : PyStr) : PyStr := removeUnsafe (url.dropWhile isC0OrSpace)

/-- Cleanup of the default-scheme argument at the top of `urlsplit`: strip
C0 controls and spaces from both ends, then remove the unsafe bytes. -/
def cleanDefault (scheme : PyStr) : PyStr :=
  removeUnsafe (((scheme.dropWhile isC0OrSpace).reverse.dropWhile isC0OrSpace).reverse)

/-- The scheme component of `urlsplit`: the lowercased detected scheme, or
the cleaned default when no scheme is found. -/
def schemeOf (dflt u1 : PyStr) : PyStr :=
  match detectScheme u1 with
  | some (pre, _) => lowerStr pre
  | none => dflt

/-- The URL remainder after the scheme-detection step of `urlsplit`
(independent of the default scheme). -/
def restAfterScheme (u1 : PyStr) : PyStr :=
  match detectScheme u1 with
  | some (_, rest) => rest
  | none => u1

/-- Network-location step of `urlsplit`: when the remainder starts with
`//`, split off everything up to the next `/`, `?` or `#` (`_splitnetloc`). -/
def netlocPhase (u2 : PyStr) : PyStr × PyStr :=
  if u2.take 2 = ['/', '/'] then
    ((u2.drop 2).takeWhile (fun c => !isNetlocDelim c),
     (u2.drop 2).dropWhile (fun c => !isNetlocDelim c))
  else ([], u2)

/-- CPython `urllib.parse.urlsplit`, assembled from the stages above. -/
def urlsplit (url : PyStr) (scheme : PyStr := []) (allowFragments : Bool := true) :
    SplitResult :=
  let u1 := cleanUrl url
  let (netloc, u3) := netlocPhase (restAfterScheme u1)
  let (u4, fragment) := if allowFragments then splitOnceChar '#' u3 else (u3, [])
  let (u5, query) := splitOnceChar '?' u4
  ⟨schemeOf (cleanDefault scheme) u1, netloc, u5, query, fragment⟩

/-- The scheme list `urllib.parse.uses_relative`. -/
def usesRelative : List PyStr :=
  ["", "ftp", "http", "gopher", "nntp", "imap", "wais", "file", "https", "shttp",
   "mms", "prospero", "rtsp", "rtsps", "rtspu", "sftp", "svn", "svn+ssh", "ws",
   "wss"].map String.data

/-- The scheme list `urllib.parse.uses_netloc`. -/
def usesNetloc : List PyStr :=
  ["", "ftp", "http", "gopher", "nntp", "telnet", "imap", "wais", "file", "mms",
   "https", "shttp", "snews", "prospero", "rtsp", "rtsps", "rtspu", "rsync", "svn",
   "svn+ssh", "sftp", "nfs", "git", "git+ssh", "ws", "wss"].map String.data

/-- The scheme list `urllib.parse.uses_params`. -/
def usesParams : List PyStr :=
  ["", "ftp", "hdl", "prospero", "http", "imap", "https", "shttp", "rtsp",
   "rtsps", "rtspu", "sip", "sips", "mms", "sftp", "tel"].map String.data

/-- CPython `urllib.parse._splitparams`: split path parameters after the
last slash (or anywhere when the path has no slash). -/
def splitparams (url : PyStr) : PyStr × PyStr :=
  if url.contains '/' then
    let tailPart := (url.reverse.takeWhile (fun c => c != '/')).reverse
    let headPart := url.take (url.length - tailPart.length)
    match tailPart.dropWhile (fun c => c != ';') with
    | [] => (url, [])
    | _ :: rest => (headPart ++ tailPart.takeWhile (fun c => c != ';'), rest)
  else
    match url.dropWhile (fun c => c != ';') with
    | [] => (url, [])
    | _ :: rest => (url.takeWhile (fun c => c != ';'), rest)

/-- CPython `urllib.parse.urlparse`. -/
def urlparse (url : PyStr) (scheme : PyStr := []) (allowFragments : Bool := true) :
    ParseResult :=
  let s := urlsplit url scheme allowFragments
  let (path, params) :=
    if s.scheme ∈ usesParams ∧ ';' ∈ s.path then splitparams s.path
    else (s.path, [])
  ⟨s.scheme, s.netloc, path, params, s.query, s.fragment⟩

/-- CPython `urllib.parse.urlunsplit`, with the successively reassigned
`url` variable written as the stages `url1`/`url2`/`url3` (each `if` reads
the fields before any reassignment, as the source does). -/
def urlunsplit (s : SplitResult) : PyStr :=
  let url1 :=
    if s.netloc ≠ [] ∨ (s.scheme ≠ [] ∧ s.scheme ∈ usesNetloc ∧ s.path.take 2 ≠ ['/', '/']) then
      '/' :: '/' :: (s.netloc ++
        (if s.path ≠ [] ∧ s.path.take 1 ≠ ['/'] then '/' :: s.path else s.path))
    else s.path
  let url2 := if s.scheme ≠ [] then s.scheme ++ ':' :: url1 else url1
  let url3 := if s.query ≠ [] then url2 ++ '?' :: s.query else url2
  if s.fragment ≠ [] then url3 ++ '#' :: s.fragment else url3

/-- CPython `urllib.parse.urlunparse`. -/
def urlunparse (p : ParseResult) : PyStr :=
  let url := if p.params ≠ [] then p.path ++ ';' :: p.params else p.path
  urlunsplit ⟨p.scheme, p.netloc, url, p.query, p.fragment⟩

/-- Middle-segment cleanup in `urljoin`:
`segments[1:-1] = filter(None, segments[1:-1])`. -/
def filterMiddle (l : List PyStr) : List PyStr :=
  match l with
  | [] => []
  | a :: rest =>
    match rest.reverse with
    | [] => [a]
    | last :: midRev => a :: (midRev.reverse.filter (fun s => !s.isEmpty)) ++ [last]

/-- Segment-resolution loop of `urljoin`: `'.'` is skipped, `'..'` pops the
accumulator, and pops from an empty accumulator are ignored. -/
def resolveSegs (acc : List PyStr) : List PyStr → List PyStr
  | [] => acc
  | seg :: rest =>
    if seg = ['.', '.'] then resolveSegs acc.dropLast rest
    else if seg = ['.'] then resolveSegs acc rest
    else resolveSegs (acc ++ [seg]) rest

/-- Path-merging part of `urljoin`, applied once the joined URL keeps the
base scheme: merge the base path with the relative path and resolve the
`.` and `..` segments. -/
def joinPath (bpath upath : PyStr) : PyStr :=
  let baseParts := List.splitOn '/' bpath
  let baseParts := if baseParts.getLast? ≠ some [] then baseParts.dropLast else baseParts
  let segments :=
    if upath.take 1 = ['/'] then List.splitOn '/' upath
    else filterMiddle (baseParts ++ List.splitOn '/' upath)
  let resolved := resolveSegs [] segments
  let resolved :=
    if segments.getLast? = some ['.'] ∨ segments.getLast? = some ['.', '.'] then
      resolved ++ [[]]
    else resolved
  let joined := List.intercalate ['/'] resolved
  if joined = [] then ['/'] else joined

/-- Body of `urljoin` on the two parse results (after the empty-argument
shortcuts). -/
def urljoinCore (url : PyStr) (b u : ParseResult) : PyStr :=
  if u.scheme ≠ b.scheme ∨ u.scheme ∉ usesRelative then url
  else if u.scheme ∈ usesNetloc ∧ u.netloc ≠ [] then
    urlunparse ⟨u.scheme, u.netloc, u.path, u.params, u.query, u.fragment⟩
  else
    let netloc := if u.scheme ∈ usesNetloc then b.netloc else u.netloc
    if u.path = [] ∧ u.params = [] then
      urlunparse ⟨u.scheme, netloc, b.path, b.params,
                  (if u.query ≠ [] then u.query else b.query), u.fragment⟩
    else
      urlunparse ⟨u.scheme, netloc, joinPath b.path u.path, u.params, u.query, u.fragment⟩

/-- CPython `urllib.parse.urljoin`. -/
def urljoin (base url : PyStr) (allowFragments : Bool := true) : PyStr :=
  if base = [] then url
  else if url = [] then base
  else
    let b := urlparse base [] allowFragments
    urljoinCore url b (urlparse url b.scheme allowFragments)

/-- The method `BaseParser._make_absolute` of `parse.py`, with the document's
`base_url` made an explicit argument. -/
def make_absolute (base_url link : PyStr) : PyStr :=
  let parsed := urlparse link
  if parsed.netloc = [] then urljoin base_url link
  else if parsed.scheme = [] then
    urlunparse { parsed with scheme := (urlparse base_url).scheme }
  else link

/-- Scalar-value ranges of the scheme characters. -/
abbrev schemeCharRange (n : Nat) : Prop :=
  n = 43 ∨ n = 45 ∨ n = 46 ∨ (48 ≤ n ∧ n ≤ 57) ∨ (65 ≤ n ∧ n ≤ 90) ∨ (97 ≤ n ∧ n ≤ 122)

/-- A well-formed scheme component as produced by a successful scheme
detection: non-empty, leading ASCII letter, all scheme characters. -/
def SchemeOk (s : PyStr) : Prop :=
  s ≠ [] ∧ isAsciiAlpha s.headI = true ∧ ∀ c ∈ s, isSchemeChar c = true

/-- A well-formed network-location component as produced by `urlsplit`:
non-empty, free of the netloc delimiters and of the unsafe URL bytes. -/
def NetlocOk (n : PyStr) : Prop :=
  n ≠ [] ∧ ∀ c ∈ n, isNetlocDelim c = false ∧ isUnsafeUrlChar c = false

/-!
### Document and element model

The lxml/pyquery tree and selector engine are external collaborators; a
document is therefore represented by the data the wrapper code reads from
them: for each anchor element produced by the `pq('a')` scan (in scan
order) the attribute values the code accesses, and likewise for each
`<base>` element produced by the `pq('base')` scan.  Attribute access via
`Element.attrs` is modelled directly: `class` and `rel` are stored as the
token sequences `attrs` splits them into, `href` as the raw attribute
value (`none` when the attribute is absent), and `full_text` as the
tree's `text_content()` result.
-/

/-- Data of one anchor `Element` as accessed through `Element.attrs` and
`Element.full_text`. -/
structure Anchor where
  full_text : PyStr
  href : Option PyStr
  rel : List PyStr
  classes : List PyStr
deriving Repr, DecidableEq

/-- Data of one `<base>` element: the raw `href` attribute value. -/
structure BaseTag where
  href : Option PyStr
deriving Repr, DecidableEq

/-- An `HTML` document as seen by the wrapper code. -/
structure Doc where
  url : PyStr
  anchors : List Anchor
  bases : List BaseTag
  skip_anchors : Bool := true
deriving Repr, DecidableEq

/-- Python exceptions that can escape the modelled operations. -/
inductive PyErr where
  | keyError
  | attributeError
  | maxRetries
  | recursionError
deriving Repr, DecidableEq

/-- Containment test of `BaseParser.find`:
`any(c.lower() in element.full_text.lower() for c in containing)`. -/
def matchesContaining (containing : List PyStr) (fullText : PyStr) : Bool :=
  containing.any (fun c => containsSub (lowerStr c) (lowerStr fullText))

/-- The restriction step of `BaseParser.find` for a `containing` filter over
the selector-engine scan results: an empty filter list is falsy and leaves
the scan untouched; a non-empty one keeps the matching elements and then
reverses the list in place.  (A single string passed as `containing` is
first wrapped into a one-element list by the source.) -/
def find (scan : List Anchor) (containing : List PyStr) : List Anchor :=
  if containing.isEmpty then scan
  else (scan.filter (fun e => matchesContaining containing e.full_text)).reverse

/-- One candidate test of the scan loop inside `HTML.next.get_next`:
the candidate has a truthy `href` and satisfies one of the three per-candidate
preferences (`rel` token `next`, a class name containing `next`, or `page`
inside the href). -/
def nextQualifies (c : Anchor) : Bool :=
  (match c.href with
   | some h => !h.isEmpty
   | none => false)
  && (c.rel.contains ("next").data
      || c.classes.any (fun cl => containsSub ("next").data cl)
      || containsSub ("page").data (c.href.getD []))

/-- The scan loop of `HTML.next.get_next` over the candidate list. -/
def scanCandidates : List Anchor → Option PyStr
  | [] => none
  | c :: rest =>
    match c.href with
    | some h =>
      if !h.isEmpty then
        if c.rel.contains ("next").data then some h
        else if c.classes.any (fun cl => containsSub ("next").data cl) then some h
        else if containsSub ("page").data h then some h
        else scanCandidates rest
      else scanCandidates rest
    | none => scanCandidates rest

/-- The inner function `get_next` of `HTML.next`: scan the candidates, then
fall back to `candidates[-1].attrs['href']`, where only `IndexError` (an
empty candidate list) is caught — a last candidate without an `href`
attribute raises `KeyError`. -/
def get_next (d : Doc) (next_symbol : List PyStr) : Except PyErr (Option PyStr) :=
  let candidates := find d.anchors next_symbol
  match scanCandidates candidates with
  | some h => .ok (some h)
  | none =>
    match candidates.getLast? with
    | none => .ok none
    | some c =>
      match c.href with
      | some h => .ok (some h)
      | none => .error .keyError

/-- Fallback branch of `BaseParser.base_url`: the document URL reparsed with
everything after the last slash of its path removed
(`'/'.join(parsed['path'].split('/')[:-1]) + '/'`), all other components
kept. -/
def dirDefault (url : PyStr) : PyStr :=
  let parsed := urlparse url
  urlunparse { parsed with
    path := List.intercalate ['/'] ((List.splitOn '/' parsed.path).dropLast) ++ ['/'] }

/-- The property `BaseParser.base_url`: the first `<base>` element's stripped
`href` when non-blank, else the containing-directory form of the document
URL. -/
def base_url (d : Doc) : PyStr :=
  match d.bases.head? with
  | some b =>
    let result := pyStrip (b.href.getD [])
    if !result.isEmpty then result else dirDefault d.url
  | none => dirDefault d.url

/-- The method `HTML.next` with `fetch=False`: a falsy result of `get_next`
(no candidate, or a blank fallback href) yields `None`; otherwise the chosen
href is made absolute. -/
def HTML.next (d : Doc) (next_symbol : List PyStr) : Except PyErr (Option PyStr) := do
  let n ← get_next d next_symbol
  match n with
  | none => pure none
  | some h =>
    if h.isEmpty then pure none
    else pure (some (make_absolute (base_url d) h))

/-- Guard of the generator inside `BaseParser.links`: keep a stripped href
iff it is truthy, not a skipped bare-fragment anchor, and not a
`javascript:` or `mailto:` link. -/
def linkKeep (skipAnchors : Bool) (href : PyStr) : Bool :=
  !href.isEmpty
    && !(("#").data.isPrefixOf href && skipAnchors)
    && !(("javascript:").data.isPrefixOf href)
    && !(("mailto:").data.isPrefixOf href)

/-- The property `BaseParser.links`: for each anchor of the `find('a')` scan,
a missing `href` attribute is skipped (`KeyError` passed over), the value is
whitespace-stripped, and blank, skipped-anchor (`#…` with `skip_anchors`),
`javascript:` and `mailto:` values are excluded.  The Python `set` is
modelled as the list of yielded values. -/
def links (d : Doc) : List PyStr :=
  d.anchors.filterMap (fun a =>
    match a.href with
    | none => none
    | some raw =>
      let href := pyStrip raw
      if linkKeep d.skip_anchors href then some href else none)

/-!
### Encoding resolution and content properties

`BaseParser.encoding`, `raw_html` and `html` combine wrapper control flow
with external collaborators: the w3lib sniffer `html_to_unicode` and the
codecs machinery.  The collaborators are opaque parameters of the model; the
wrapper's branching, caching and exception handling are transcribed.
-/

/-- Opaque codec collaborators of `BaseParser`. -/
structure Codec (ρ : Type) where
  /-- First component of `w3lib.encoding.html_to_unicode(default, content)`:
  the sniffed encoding name, with the default as fallback hint. -/
  sniff : Option PyStr → PyBytes → PyStr
  /-- Whether `content.decode(enc, errors='replace')` raises
  `UnicodeDecodeError`. -/
  decodeRaises : Option PyStr → PyBytes → Bool
  /-- Result of `text.encode(enc)`. -/
  encode : Option PyStr → PyStr → PyBytes
  /-- Result of `content.decode(enc, errors='replace')`. -/
  decodeReplace : Option PyStr → PyBytes → PyStr

/-- Mutable state of a `BaseParser` view relevant to content properties:
the serialization `etree.tostring(self.element, encoding='unicode')` of the
element tree (an external collaborator's output), the default encoding, the
encoding cache `_encoding` and the raw content `_html`. -/
structure ParserState where
  elementSer : PyStr
  default_encoding : Option PyStr
  _encoding : Option PyStr
  _html : Option PyBytes
deriving DecidableEq

/-- The property `BaseParser.encoding`, returning the resolved encoding and
the state with the updated `_encoding` cache.  When the cache is falsy and
raw content is truthy, the sniffed encoding is stored, the raw content is
tentatively decoded with it, and a `UnicodeDecodeError` from that decode is
swallowed by falling back to the default encoding.  A falsy sniff result
would re-enter the property without bound (Python's `RecursionError`);
the sniffer returns a non-empty name in practice. -/
def encoding {ρ} (cd : Codec ρ) (st : ParserState) : Except PyErr (Option PyStr × ParserState) :=
  if !truthyStr st._encoding && truthyBytes st._html then
    let raw := st._html.getD []
    let sniffed := cd.sniff st.default_encoding raw
    if sniffed.isEmpty then .error .recursionError
    else
      let enc' := if cd.decodeRaises (some sniffed) raw then st.default_encoding
                  else some sniffed
      let st' := { st with _encoding := enc' }
      .ok (if truthyStr enc' then enc' else st.default_encoding, st')
  else
    .ok (if truthyStr st._encoding then st._encoding else st.default_encoding, st)

/-- The sniffed encoding of a parser state: first component of
`html_to_unicode(self.default_encoding, self._html)`. -/
def sniffedEnc {ρ} (cd : Codec ρ) (st : ParserState) : PyStr :=
  cd.sniff st.default_encoding (st._html.getD [])

/-- The encoding that the sniff block of `BaseParser.encoding` caches: the
sniffed encoding, except when the tentative decode with it raises, in which
case the default encoding. -/
def fallbackEnc {ρ} (cd : Codec ρ) (st : ParserState) : Option PyStr :=
  if cd.decodeRaises (some (sniffedEnc cd st)) (st._html.getD []) then st.default_encoding
  else some (sniffedEnc cd st)

/-- The property `BaseParser.raw_html`: the raw content when truthy, else
the stripped serialization of the element tree encoded with the resolved
encoding. -/
def raw_html {ρ} (cd : Codec ρ) (st : ParserState) : Except PyErr PyBytes :=
  if truthyBytes st._html then .ok (st._html.getD [])
  else do
    let (enc, _) ← encoding cd st
    .ok (cd.encode enc (pyStrip st.elementSer))

/-- The property `BaseParser.html`: the raw content decoded with the
resolved encoding (errors replaced) when truthy, else the stripped
serialization of the element tree. -/
def html {ρ} (cd : Codec ρ) (st : ParserState) : Except PyErr PyStr :=
  if truthyBytes st._html then do
    let raw ← raw_html cd st
    let (enc, _) ← encoding cd st
    .ok (cd.decodeReplace enc raw)
  else .ok (pyStrip st.elementSer)

/-!
### Render retry orchestration

`HTML.render` and `HTML.arender` drive `_async_render` in a bounded retry
loop.  One `_async_render` call is opaque browser work: its outcome is
`none` for the `TimeoutError` path (where `_async_render` returns a bare
`None`, so the caller's tuple unpacking raises the `TypeError` it passes
over) and otherwise the captured page content with the script result.

Both methods first execute `self.browser = self.session.browser` (for
`arender`, `self.browser = await self.session.browser`).  `BaseParser`,
`Element` and `HTML` all declare `__slots__`, so `HTML` instances have no
`__dict__` and accept assignment only to the declared slot names —
`browser` is not one of them.
-/

/-- The `__slots__` tuple of `BaseParser` (parse.py). -/
def baseParserSlots : List String :=
  ["element", "url", "skip_anchors", "default_encoding", "_encoding", "_html",
   "_lxml", "_pq"]

/-- The `__slots__` tuple of `HTML` (parse.py). -/
def htmlSlots : List String := ["session", "page", "next_symbol"]

/-- Attribute names assignable on an `HTML` instance: only the slot names
declared along the class hierarchy. -/
def htmlAssignable : List String := baseParserSlots ++ htmlSlots

/-- Python attribute assignment on an `HTML` instance: allowed exactly for
declared slot names, otherwise `AttributeError`. -/
def htmlSetattr (name : String) : Except PyErr Unit :=
  if htmlAssignable.contains name then .ok () else .error .attributeError

/-- Loop state of the render retry loop: the `content` variable (initially
`None`), the last captured script `result`, and the number of
`_async_render` attempts made. -/
structure RenderState (ρ : Type) where
  content : Option PyStr
  result : Option ρ
  attemptsMade : Nat
deriving DecidableEq

/-- The retry loop of `HTML.render` / `HTML.arender`
(`for i in range(retries): if not content: ... else: break`): while the
captured content is falsy, call `_async_render` again; a `TimeoutError`
outcome leaves the state unchanged apart from the attempt count. -/
def renderLoop {ρ} (attempt : Nat → Option (PyStr × Option ρ)) :
    Nat → RenderState ρ → RenderState ρ
  | 0, st => st
  | n + 1, st =>
    if truthyStr st.content then st
    else
      match attempt st.attemptsMade with
      | none => renderLoop attempt n { st with attemptsMade := st.attemptsMade + 1 }
      | some (c, r) =>
        renderLoop attempt n
          { content := some c, result := r, attemptsMade := st.attemptsMade + 1 }

/-- Access to `self.__dict__` on an `HTML` instance (used by the wholesale
state replacement `self.__dict__.update(html.__dict__)`): slotted instances
have no `__dict__`, so the access raises `AttributeError`. -/
def htmlDictUpdate : Except PyErr Unit := .error .attributeError

/-- The method `HTML.render` (the async `arender` has the identical
structure).  Its first statement assigns `self.browser`, which is not a
declared slot; were that assignment to succeed, the loop would run, a falsy
final content would raise `MaxRetries('Unable to render the page. Try
increasing timeout.')`, and the success path would replace the document
state wholesale via `self.__dict__.update` — which a slotted instance also
lacks. -/
def render {ρ} (attempt : Nat → Option (PyStr × Option ρ)) (retries : Nat) :
    Except PyErr (Option ρ) :=
  match htmlSetattr "browser" with
  | .error e => .error e
  | .ok _ =>
    let st := renderLoop attempt retries ⟨none, none, 0⟩
    if !truthyStr st.content then .error .maxRetries
    else
      match htmlDictUpdate with
      | .error e => .error e
      | .ok _ => .ok st.result

/-- The method `HTML.arender` with `fetch` of the browser awaited; its
control flow is the same as `render`. -/
def arender {ρ} (attempt : Nat → Option (PyStr × Option ρ)) (retries : Nat) :
    Except PyErr (Option ρ) :=
  match htmlSetattr "browser" with
  | .error e => .error e
  | .ok _ =>
    let st := renderLoop attempt retries ⟨none, none, 0⟩
    if !truthyStr st.content then .error .maxRetries
    else
      match htmlDictUpdate with
      | .error e => .error e
      | .ok _ => .ok st.result

/-!
### Fixtures
-/

/-- Fixture element A: matches the containing filter (lower case). -/
def elemA : Anchor := ⟨("alpha foo one").data, none, [], []⟩

/-- Fixture element B: matches the containing filter case-insensitively. -/
def elemB : Anchor := ⟨("beta FOO two").data, none, [], []⟩

/-- Fixture element C: does not match the containing filter. -/
def elemC : Anchor := ⟨("gamma bar").data, none, [], []⟩

/-- Fixture document with a single anchor whose text matches no marker. -/
def docPlain : Doc :=
  { url := ("https://example.org/a/b").data,
    anchors := [⟨("home sweet home").data, some (("/index").data), [], []⟩],
    bases := [] }

/-- Fixture document whose sole base tag has a whitespace-padded href. -/
def docSpacedBase : Doc :=
  { url := ("https://example.org/a/b").data,
    anchors := [],
    bases := [⟨some ((" https://cdn.example/lib/ ").data)⟩] }

/-- Fixture anchor carrying the rel token `next` (first in scan order). -/
def anchRelNext : Anchor :=
  ⟨("next page link").data, some (("https://e.org/b").data), [("next").data], []⟩

/-- Fixture anchor whose href contains `page` (second in scan order). -/
def anchPageHref : Anchor :=
  ⟨("more next stuff").data, some (("https://e.org/x?page=2").data), [], []⟩

/-- Fixture document holding the two competing pagination anchors. -/
def docRelNext : Doc :=
  { url := ("https://e.org/").data, anchors := [anchRelNext, anchPageHref], bases := [] }

/-- Identity-flavoured codec fixture. -/
def unitCodec : Codec Unit :=
  ⟨fun _ _ => ("utf-8").data, fun _ _ => false,
   fun _ t => t.map Char.toNat, fun _ b => b.map Char.ofNat⟩

/-- Codec fixture whose tentative decode raises `UnicodeDecodeError`. -/
def failCodec : Codec Unit :=
  ⟨fun _ _ => ("big5").data, fun _ _ => true,
   fun _ t => t.map Char.toNat, fun _ b => b.map Char.ofNat⟩

/-- Parser-state fixture whose raw content is the empty byte string. -/
def emptyHtmlState : ParserState :=
  ⟨("<p>hi</p>").data, some (("utf-8").data), none, some []⟩

/-- Parser-state fixture with truthy raw content and no cached encoding. -/
def sniffState : ParserState :=
  ⟨[], some (("utf-8").data), none, some [104, 105]⟩

/-!
### Claim theorems: find, next, links, base_url
-/

/-- C2: `find` with a `containing` filter keeps exactly the elements whose
full text contains one of the filter strings case-insensitively and returns
them in reverse scan order, while an absent filter leaves the scan order
untouched; on the three-element fixture with matches A and B (in scan
order), the result is `[B, A]`. -/
theorem find_containing_policy :
    (∀ (scan : List Anchor) (cs : List PyStr), cs ≠ [] →
        find scan cs = (scan.filter (fun e => matchesContaining cs e.full_text)).reverse)
    ∧ (∀ scan : List Anchor, find scan [] = scan)
    ∧ find [elemA, elemB, elemC] [("foo").data] = [elemB, elemA] := by
  refine ⟨fun scan cs h => ?_, fun scan => rfl, by decide⟩
  simp [find, h]

/-- Witness for `find_containing_policy`: its filtered clause applied to the
concrete fixture. -/
theorem find_containing_policy_witness :
    find [elemA, elemB, elemC] [("foo").data]
      = (([elemA, elemB, elemC].filter
          (fun e => matchesContaining [("foo").data] e.full_text)).reverse) :=
  find_containing_policy.1 [elemA, elemB, elemC] [("foo").data] (by decide)

/-- C7: when no anchor's full text contains any marker token, `HTML.next`
with `fetch=False` returns `None` and raises nothing. -/
theorem next_returns_none_without_candidates (d : Doc) (syms : List PyStr)
    (hs : syms ≠ [])
    (h : ∀ a ∈ d.anchors, matchesContaining syms a.full_text = false) :
    HTML.next d syms = Except.ok none := by
  have hfil : d.anchors.filter (fun e => matchesContaining syms e.full_text) = [] :=
    List.filter_eq_nil_iff.mpr (fun a ha => by simp [h a ha])
  have hf : find d.anchors syms = [] := by
    simp [find, hs, hfil]
  simp only [HTML.next, get_next, hf, scanCandidates, List.getLast?_nil]
  rfl

/-- Witness for `next_returns_none_without_candidates` at a concrete page
with the default marker tokens. -/
theorem next_returns_none_without_candidates_witness :
    HTML.next docPlain [("next").data, ("more").data, ("older").data] = Except.ok none :=
  next_returns_none_without_candidates docPlain _ (by decide) (by decide)

/-- Membership characterization of `links`. -/
theorem links_mem_iff (d : Doc) (h : PyStr) :
    h ∈ links d ↔ ∃ a ∈ d.anchors, ∃ raw, a.href = some raw ∧ pyStrip raw = h
      ∧ linkKeep d.skip_anchors h = true := by
  simp only [links, List.mem_filterMap]
  constructor
  · rintro ⟨a, ha, hf⟩
    refine ⟨a, ha, ?_⟩
    cases hr : a.href with
    | none => rw [hr] at hf; simp at hf
    | some raw =>
      rw [hr] at hf
      by_cases hk : linkKeep d.skip_anchors (pyStrip raw)
      · simp only [hk, if_true] at hf
        obtain rfl := Option.some.inj hf
        exact ⟨raw, rfl, rfl, hk⟩
      · simp [hk] at hf
  · rintro ⟨a, ha, raw, hr, hstrip, hk⟩
    refine ⟨a, ha, ?_⟩
    rw [hr]
    simp only [hstrip, hk, if_true]

/-- C10: `links` never yields the empty string: anchors without an `href`
attribute are skipped, values are whitespace-stripped, and values blank
after stripping (besides the documented `javascript:`, `mailto:` and
bare-fragment exclusions) are dropped. -/
theorem links_never_blank (d : Doc) :
    ([] : PyStr) ∉ links d
    ∧ (∀ h : PyStr, h ∈ links d ↔
        ∃ a ∈ d.anchors, ∃ raw, a.href = some raw ∧ pyStrip raw = h
          ∧ linkKeep d.skip_anchors h = true) := by
  refine ⟨fun hmem => ?_, links_mem_iff d⟩
  obtain ⟨a, _, raw, _, _, hk⟩ := (links_mem_iff d []).mp hmem
  simp [linkKeep] at hk

/-- Reduction of a bind over a successful `Except` value. -/
theorem exceptBindOk {ε α β : Type} (x : α) (f : α → Except ε β) :
    (Except.ok x : Except ε α) >>= f = f x := rfl

/-- The scan loop of `get_next` picks the first candidate, in iteration
order, that has a truthy href and satisfies one of the three per-candidate
preferences. -/
theorem scanCandidates_eq_find? (cs : List Anchor) :
    scanCandidates cs = (cs.find? nextQualifies).map (fun c => c.href.getD []) := by
  induction cs with
  | nil => rfl
  | cons c rest ih =>
    cases hr : c.href with
    | none =>
      have hq : ¬ (nextQualifies c = true) := by simp [nextQualifies, hr]
      rw [List.find?_cons_of_neg _ hq, ← ih]
      simp [scanCandidates, hr]
    | some h =>
      by_cases he : h.isEmpty = true
      · have hq : ¬ (nextQualifies c = true) := by simp [nextQualifies, hr, he]
        rw [List.find?_cons_of_neg _ hq, ← ih]
        simp [scanCandidates, hr, he]
      · have he' : h.isEmpty = false := by simpa using he
        by_cases h1 : ("next").data ∈ c.rel
        · have hq : nextQualifies c = true := by simp [nextQualifies, hr, he', h1]
          rw [List.find?_cons_of_pos _ hq]
          simp [scanCandidates, hr, he', h1]
        · by_cases h2 : ∃ cl ∈ c.classes, containsSub ("next").data cl = true
          · have hq : nextQualifies c = true := by simp [nextQualifies, hr, he', h2]
            rw [List.find?_cons_of_pos _ hq]
            simp [scanCandidates, hr, he', h1, h2]
          · by_cases h3 : containsSub ("page").data h = true
            · have hq : nextQualifies c = true := by simp [nextQualifies, hr, he', h3]
              rw [List.find?_cons_of_pos _ hq]
              simp [scanCandidates, hr, he', h1, h2, h3]
            · have hq : ¬ (nextQualifies c = true) := by
                simp [nextQualifies, hr, he', h1, h2, h3]
              rw [List.find?_cons_of_neg _ hq, ← ih]
              simp [scanCandidates, hr, he', h1, h2, h3]

/-- C1 (amended): `HTML.next` scans the containing-filtered candidates in
reverse scan order and takes the first candidate with a truthy href
satisfying any of rel-token `next`, class containing `next`, or `page` in
the href — the three preferences are tested per candidate inside one loop,
not as global tiers; when no candidate qualifies, it falls back to the last
element of the reversed list, i.e. the first candidate in scan order (a
fallback candidate with no `href` attribute raises `KeyError`, a blank one
yields `None`); the chosen href is resolved to absolute form. -/
theorem next_selection_policy (d : Doc) (syms : List PyStr) (hs : syms ≠ []) :
    HTML.next d syms =
      (match (d.anchors.filter
          (fun e => matchesContaining syms e.full_text)).reverse.find? nextQualifies with
       | some c => Except.ok (some (make_absolute (base_url d) (c.href.getD [])))
       | none =>
         match (d.anchors.filter (fun e => matchesContaining syms e.full_text)).head? with
         | none => Except.ok none
         | some c =>
           match c.href with
           | none => Except.error PyErr.keyError
           | some h =>
             if h.isEmpty then Except.ok none
             else Except.ok (some (make_absolute (base_url d) h))) := by
  have hfind : find d.anchors syms
      = (d.anchors.filter (fun e => matchesContaining syms e.full_text)).reverse := by
    simp [find, hs]
  generalize hm : d.anchors.filter (fun e => matchesContaining syms e.full_text) = matched
      at hfind ⊢
  cases hfq : matched.reverse.find? nextQualifies with
  | some c =>
    have hq : nextQualifies c = true := List.find?_some hfq
    obtain ⟨h, hh, hhe⟩ : ∃ h, c.href = some h ∧ h.isEmpty = false := by
      cases hr : c.href with
      | none => simp [nextQualifies, hr] at hq
      | some h =>
        by_cases he : h.isEmpty = true
        · simp [nextQualifies, hr, he] at hq
        · exact ⟨h, rfl, by simpa using he⟩
    have hget : get_next d syms = Except.ok (some h) := by
      simp only [get_next, hfind, scanCandidates_eq_find?, hfq, Option.map_some]
      simp [hh]
    simp only [HTML.next, hget, exceptBindOk, hh]
    simp only [hhe, Bool.false_eq_true, if_false]
    rfl
  | none =>
    have hscan : scanCandidates matched.reverse = none := by
      rw [scanCandidates_eq_find?, hfq]; rfl
    cases hh : matched.head? with
    | none =>
      have hget : get_next d syms = Except.ok none := by
        simp only [get_next, hfind, hscan, List.getLast?_reverse, hh]
      simp only [HTML.next, hget, exceptBindOk]
      rfl
    | some c =>
      cases hr : c.href with
      | none =>
        have hget : get_next d syms = Except.error PyErr.keyError := by
          simp only [get_next, hfind, hscan, List.getLast?_reverse, hh, hr]
        simp only [HTML.next, hget, hr]
        rfl
      | some h =>
        have hget : get_next d syms = Except.ok (some h) := by
          simp only [get_next, hfind, hscan, List.getLast?_reverse, hh, hr]
        simp only [HTML.next, hget, exceptBindOk, hr]
        by_cases he : h.isEmpty = true
        · simp only [he, if_true]
          rfl
        · have he' : h.isEmpty = false := by simpa using he
          simp only [he', Bool.false_eq_true, if_false]
          rfl

/-- Witness for `next_selection_policy` at the two-anchor fixture. -/
theorem next_selection_policy_witness :
    HTML.next docRelNext [("next").data]
      = (match (docRelNext.anchors.filter
            (fun e => matchesContaining [("next").data] e.full_text)).reverse.find?
            nextQualifies with
         | some c => Except.ok (some (make_absolute (base_url docRelNext) (c.href.getD [])))
         | none =>
           match (docRelNext.anchors.filter
              (fun e => matchesContaining [("next").data] e.full_text)).head? with
           | none => Except.ok none
           | some c =>
             match c.href with
             | none => Except.error PyErr.keyError
             | some h =>
               if h.isEmpty then Except.ok none
               else Except.ok (some (make_absolute (base_url docRelNext) h))) :=
  next_selection_policy docRelNext [("next").data] (by decide)

/-- C1 counterexample: in this document, scan order holds first an anchor
whose rel tokens include `next`, then an anchor whose href contains `page`;
both match the marker.  The claimed global preference for the rel-`next`
candidate would choose `https://e.org/b`, but `HTML.next` iterates the
reversed candidate list and returns the `page` candidate's href instead. -/
theorem next_not_global_rel_priority :
    anchRelNext ∈ docRelNext.anchors
    ∧ ("next").data ∈ anchRelNext.rel
    ∧ matchesContaining [("next").data] anchRelNext.full_text = true
    ∧ HTML.next docRelNext [("next").data]
        = Except.ok (some (("https://e.org/x?page=2").data))
    ∧ make_absolute (base_url docRelNext) (anchRelNext.href.getD [])
        = ("https://e.org/b").data
    ∧ (("https://e.org/x?page=2").data : PyStr) ≠ ("https://e.org/b").data := by
  refine ⟨by decide, by decide, by decide, by rfl, by rfl, by decide⟩

/-!
### Claim theorems: encoding and content properties
-/

/-- C9: with raw content equal to the empty byte string (treated by the
truthiness tests exactly like absent content) and no cached encoding,
`raw_html` and `html` serialize the element tree instead of returning the
stored empty bytes, and `encoding` skips sniffing and resolves to the
default encoding. -/
theorem empty_raw_content_uses_tree {ρ} (cd : Codec ρ) (st : ParserState)
    (hh : st._html = some []) (hc : truthyStr st._encoding = false) :
    raw_html cd st = .ok (cd.encode st.default_encoding (pyStrip st.elementSer))
    ∧ html cd st = .ok (pyStrip st.elementSer)
    ∧ encoding cd st = .ok (st.default_encoding, st) := by
  have ht : truthyBytes st._html = false := by rw [hh]; rfl
  refine ⟨?_, ?_, ?_⟩ <;> (simp [raw_html, html, encoding, ht, hc]; try rfl)

/-- Witness for `empty_raw_content_uses_tree` at a concrete state. -/
theorem empty_raw_content_uses_tree_witness :
    raw_html unitCodec emptyHtmlState
      = .ok (unitCodec.encode emptyHtmlState.default_encoding (pyStrip emptyHtmlState.elementSer))
    ∧ html unitCodec emptyHtmlState = .ok (pyStrip emptyHtmlState.elementSer)
    ∧ encoding unitCodec emptyHtmlState = .ok (emptyHtmlState.default_encoding, emptyHtmlState) :=
  empty_raw_content_uses_tree unitCodec emptyHtmlState rfl rfl

/-- C5: with truthy raw content and no cached or explicitly set encoding,
`encoding` sniffs the declared encoding with the default as fallback hint,
tentatively decodes the raw content with the sniffed encoding, and on a
decode failure silently resolves to the default encoding instead of
propagating the error — the property always returns, never raises. -/
theorem encoding_sniff_fallback {ρ} (cd : Codec ρ) (st : ParserState)
    (hc : truthyStr st._encoding = false) (hr : truthyBytes st._html = true)
    (hs : sniffedEnc cd st ≠ []) :
    encoding cd st = .ok (fallbackEnc cd st, { st with _encoding := fallbackEnc cd st }) := by
  have hs' : sniffedEnc cd st ≠ [] := hs
  rw [sniffedEnc] at hs'
  have h2 : (cd.sniff st.default_encoding (st._html.getD [])).isEmpty = false :=
    List.isEmpty_eq_false.mpr hs'
  have h3 : truthyStr (some (cd.sniff st.default_encoding (st._html.getD []))) = true := by
    simp [truthyStr, h2]
  by_cases hd : cd.decodeRaises (some (cd.sniff st.default_encoding (st._html.getD [])))
      (st._html.getD [])
  · simp [encoding, fallbackEnc, sniffedEnc, hc, hr, hd, h2, ite_self]
  · simp [encoding, fallbackEnc, sniffedEnc, hc, hr, hd, h2, h3]

/-- Witness for `encoding_sniff_fallback`: a codec whose tentative decode
fails, so the resolved encoding silently falls back to the default. -/
theorem encoding_sniff_fallback_witness :
    encoding failCodec sniffState
      = .ok (fallbackEnc failCodec sniffState,
             { sniffState with _encoding := fallbackEnc failCodec sniffState }) :=
  encoding_sniff_fallback failCodec sniffState rfl rfl (by decide)

/-!
### Claim theorems: render orchestration
-/

/-- C3 (code-bug evidence): every `render` call raises `AttributeError`
before the first attempt — `self.browser = self.session.browser` assigns an
attribute that is in no `__slots__` declaration — so the documented
`MaxRetries` exhaustion behaviour is unreachable. -/
theorem render_always_attribute_error :
    (∀ (retries : Nat) (attempt : Nat → Option (PyStr × Option Unit)),
        render attempt retries = .error .attributeError)
    ∧ ¬ ("browser" ∈ htmlAssignable) := by
  exact ⟨fun retries attempt => rfl, by decide⟩

/-- C8 (code-bug evidence): `arender` likewise raises `AttributeError` at
entry; and in the modelled retry loop (were it reachable) an attempt that
captures empty content counts as a failure — with every capture empty, all
8 attempts of the default budget are consumed and the final content is
still falsy, which is the `MaxRetries` branch, not the state-replacing
success branch. -/
theorem arender_always_attribute_error :
    (∀ (retries : Nat) (attempt : Nat → Option (PyStr × Option Unit)),
        arender attempt retries = .error .attributeError)
    ∧ (renderLoop (fun _ => some ([], (none : Option Unit))) 8
        ⟨none, none, 0⟩).attemptsMade = 8
    ∧ truthyStr (renderLoop (fun _ => some ([], (none : Option Unit))) 8
        ⟨none, none, 0⟩).content = false := by
  exact ⟨fun retries attempt => rfl, by decide, by decide⟩

/-!
### Claim theorems: base_url
-/

/-- C6 (amended): `base_url` returns the first base tag's
whitespace-stripped href when that is non-blank, and otherwise the document
URL with everything after the last slash of its path dropped. -/
theorem base_url_policy :
    (∀ (d : Doc) (b : BaseTag), d.bases.head? = some b →
        pyStrip (b.href.getD []) ≠ [] → base_url d = pyStrip (b.href.getD []))
    ∧ (∀ (d : Doc) (b : BaseTag), d.bases.head? = some b →
        pyStrip (b.href.getD []) = [] → base_url d = dirDefault d.url)
    ∧ (∀ d : Doc, d.bases.head? = none → base_url d = dirDefault d.url) := by
  refine ⟨fun d b hb hne => ?_, fun d b hb he => ?_, fun d hb => ?_⟩ <;>
    simp [base_url, hb, *]

/-- Witness for `base_url_policy` at the concrete spaced-href fixture. -/
theorem base_url_policy_witness :
    base_url docSpacedBase = pyStrip ((" https://cdn.example/lib/ ").data) :=
  base_url_policy.1 docSpacedBase ⟨some ((" https://cdn.example/lib/ ").data)⟩ rfl (by decide)

/-- C6 counterexample: a base tag whose non-blank href carries surrounding
whitespace is returned stripped, not verbatim, so `base_url` differs from
the exact href value. -/
theorem base_url_not_verbatim :
    docSpacedBase.bases = [⟨some ((" https://cdn.example/lib/ ").data)⟩]
    ∧ pyStrip ((" https://cdn.example/lib/ ").data) ≠ []
    ∧ base_url docSpacedBase ≠ (" https://cdn.example/lib/ ").data
    ∧ base_url docSpacedBase = ("https://cdn.example/lib/").data := by
  exact ⟨rfl, by decide, by decide, by decide⟩

/-!
### Toward C4: character facts
-/

/-- Valid scalar values below the surrogate range round-trip through
`Char.ofNat`. -/
theorem toNat_ofNat_valid (n : Nat) (h : n < 55296) : (Char.ofNat n).toNat = n := by
  unfold Char.ofNat
  rw [dif_pos (Or.inl h)]
  simp [Char.ofNatAux, Char.toNat, UInt32.ofNat', UInt32.toNat, BitVec.toNat_ofNatLt]

/-- Scalar-value description of `pyLower`. -/
theorem toNat_pyLower (c : Char) :
    (pyLower c).toNat = if 65 ≤ c.toNat ∧ c.toNat ≤ 90 then c.toNat + 32 else c.toNat := by
  by_cases h : 65 ≤ c.toNat ∧ c.toNat ≤ 90
  · simp only [pyLower, if_pos h]
    exact toNat_ofNat_valid _ (by omega)
  · simp only [pyLower, if_neg h]

/-- When a character is not an ASCII capital, `pyLower` is the identity. -/
theorem pyLower_eq_self (c : Char) (h : ¬(65 ≤ c.toNat ∧ c.toNat ≤ 90)) : pyLower c = c :=
  if_neg h

/-- Scheme characters lie in the scheme-character scalar ranges. -/
theorem schemeChar_range (c : Char) (h : isSchemeChar c = true) : schemeCharRange c.toNat := by
  simp only [isSchemeChar, isAsciiAlpha, Bool.or_eq_true, decide_eq_true_eq,
    beq_iff_eq] at h
  unfold schemeCharRange
  rcases h with ((((ha | ha) | hd) | hp) | hm) | he
  · omega
  · omega
  · omega
  · subst hp; decide
  · subst hm; decide
  · subst he; decide

/-- Scheme characters survive the URL cleanup and are not the scheme
delimiter. -/
theorem schemeChar_facts (c : Char) (h : isSchemeChar c = true) :
    isC0OrSpace c = false ∧ isUnsafeUrlChar c = false ∧ (c != ':') = true := by
  have hr := schemeChar_range c h
  refine ⟨?_, ?_, ?_⟩
  · simp only [isC0OrSpace, decide_eq_false_iff_not]
    unfold schemeCharRange at hr
    omega
  · simp only [isUnsafeUrlChar, Bool.or_eq_false_iff, beq_eq_false_iff_ne]
    refine ⟨⟨?_, ?_⟩, ?_⟩ <;> (intro he; subst he; exact absurd hr (by decide))
  · simp only [bne_iff_ne]
    intro he; subst he; exact absurd hr (by decide)

/-- `pyLower` preserves scheme characters. -/
theorem isSchemeChar_pyLower (c : Char) (h : isSchemeChar c = true) :
    isSchemeChar (pyLower c) = true := by
  have hr := schemeChar_range c h
  unfold schemeCharRange at hr
  by_cases hu : 65 ≤ c.toNat ∧ c.toNat ≤ 90
  · have ht : (pyLower c).toNat = c.toNat + 32 := by rw [toNat_pyLower, if_pos hu]
    simp only [isSchemeChar, isAsciiAlpha, Bool.or_eq_true, decide_eq_true_eq]
    have hlow : 97 ≤ (pyLower c).toNat ∧ (pyLower c).toNat ≤ 122 := by omega
    tauto
  · rw [pyLower_eq_self c hu]; exact h

/-- `pyLower` preserves ASCII letters. -/
theorem isAsciiAlpha_pyLower (c : Char) (h : isAsciiAlpha c = true) :
    isAsciiAlpha (pyLower c) = true := by
  simp only [isAsciiAlpha, decide_eq_true_eq] at h ⊢
  by_cases hu : 65 ≤ c.toNat ∧ c.toNat ≤ 90
  · have ht : (pyLower c).toNat = c.toNat + 32 := by rw [toNat_pyLower, if_pos hu]
    omega
  · rw [pyLower_eq_self c hu]; exact h

/-!
### Toward C4: list facts
-/

/-- `takeWhile` over an append whose first part wholly satisfies the
predicate. -/
theorem takeWhile_append_all {α} {p : α → Bool} {l₁ l₂ : List α}
    (h : ∀ a ∈ l₁, p a = true) :
    (l₁ ++ l₂).takeWhile p = l₁ ++ l₂.takeWhile p := by
  induction l₁ with
  | nil => rfl
  | cons a t ih =>
    simp only [List.cons_append, List.takeWhile_cons_of_pos (h a (by simp)),
      ih (fun x hx => h x (by simp [hx])), List.cons_append]

/-- `dropWhile` over an append whose first part wholly satisfies the
predicate. -/
theorem dropWhile_append_all {α} {p : α → Bool} {l₁ l₂ : List α}
    (h : ∀ a ∈ l₁, p a = true) :
    (l₁ ++ l₂).dropWhile p = l₂.dropWhile p := by
  induction l₁ with
  | nil => rfl
  | cons a t ih =>
    simp only [List.cons_append, List.dropWhile_cons_of_pos (h a (by simp)),
      ih (fun x hx => h x (by simp [hx]))]

/-!
### Toward C4: reparsing a well-formed absolute URL

A URL of the shape `scheme://netloc...` built by `urlunparse` from a
well-formed scheme and netloc parses back with a non-empty scheme and a
non-empty netloc, which is what makes `_make_absolute` leave it unchanged.
-/

/-- Removing unsafe bytes from a list that has none is the identity. -/
theorem removeUnsafe_eq_self {l : PyStr} (h : ∀ c ∈ l, isUnsafeUrlChar c = false) :
    removeUnsafe l = l := by
  unfold removeUnsafe
  rw [List.filter_eq_self]
  intro a ha
  simp [h a ha]

/-- URL cleanup on an embedded well-formed `scheme://netloc` prefix only
touches the remainder. -/
theorem cleanUrl_embed (s n rest : PyStr) (hs : SchemeOk s) (hn : NetlocOk n) :
    cleanUrl (s ++ [':', '/', '/'] ++ n ++ rest)
      = s ++ [':', '/', '/'] ++ n ++ removeUnsafe rest := by
  obtain ⟨hne, hhead, hall⟩ := hs
  obtain ⟨hnne, hnall⟩ := hn
  cases s with
  | nil => exact absurd rfl hne
  | cons s0 s' =>
    have h0 := schemeChar_facts s0 (hall s0 (by simp))
    have h1 : List.filter (fun c => !isUnsafeUrlChar c) s' = s' := by
      rw [List.filter_eq_self]
      intro a ha
      simp [(schemeChar_facts a (hall a (by simp [ha]))).2.1]
    have h3 : List.filter (fun c => !isUnsafeUrlChar c) n = n := by
      rw [List.filter_eq_self]
      intro a ha
      simp [(hnall a ha).2]
    simp only [List.cons_append, List.append_assoc]
    unfold cleanUrl
    rw [List.dropWhile_cons_of_neg (by simp [h0.1])]
    unfold removeUnsafe
    rw [List.filter_cons_of_pos (by simp [h0.2.1])]
    rw [List.filter_append, h1, List.filter_cons_of_pos (by decide),
      List.filter_cons_of_pos (by decide), List.filter_cons_of_pos (by decide)]
    simp [List.filter_append, h3]

/-- Scheme detection on an embedded well-formed scheme. -/
theorem detectScheme_embed (s t : PyStr) (hs : SchemeOk s) :
    detectScheme (s ++ ':' :: t) = some (s, t) := by
  obtain ⟨hne, hhead, hall⟩ := hs
  have hbne : ∀ c ∈ s, (c != ':') = true := fun c hc => (schemeChar_facts c (hall c hc)).2.2
  unfold detectScheme
  rw [takeWhile_append_all hbne, dropWhile_append_all hbne,
    List.takeWhile_cons_of_neg (by simp), List.dropWhile_cons_of_neg (by simp)]
  simp only [List.append_nil]
  rw [if_pos ⟨hne, hhead, List.all_eq_true.mpr hall⟩]

/-- Parsing a URL of the shape `scheme://netloc...` with well-formed
components yields the lowercased scheme and a non-empty netloc, whatever
the default scheme and fragment flag. -/
theorem urlsplit_embed (s n rest d : PyStr) (af : Bool) (hs : SchemeOk s) (hn : NetlocOk n) :
    (urlsplit (s ++ [':', '/', '/'] ++ n ++ rest) d af).scheme = lowerStr s
    ∧ (urlsplit (s ++ [':', '/', '/'] ++ n ++ rest) d af).netloc ≠ [] := by
  have hc := cleanUrl_embed s n rest hs hn
  have hshape : s ++ [':', '/', '/'] ++ n ++ removeUnsafe rest
      = s ++ ':' :: ('/' :: '/' :: (n ++ removeUnsafe rest)) := by simp
  have hds := detectScheme_embed s ('/' :: '/' :: (n ++ removeUnsafe rest)) hs
  constructor
  · show schemeOf (cleanDefault d) (cleanUrl (s ++ [':', '/', '/'] ++ n ++ rest)) = lowerStr s
    rw [hc, hshape]
    unfold schemeOf
    rw [hds]
  · show (netlocPhase (restAfterScheme (cleanUrl (s ++ [':', '/', '/'] ++ n ++ rest)))).1 ≠ []
    rw [hc, hshape]
    unfold restAfterScheme
    rw [hds]
    obtain ⟨hnne, hnall⟩ := hn
    cases n with
    | nil => exact absurd rfl hnne
    | cons n0 n' =>
      have htake : ('/' :: '/' :: (n0 :: n' ++ removeUnsafe rest)).take 2 = ['/', '/'] := rfl
      unfold netlocPhase
      rw [if_pos htake]
      show (n0 :: (n' ++ removeUnsafe rest)).takeWhile (fun c => !isNetlocDelim c) ≠ []
      rw [List.takeWhile_cons_of_pos (by simp [(hnall n0 (by simp)).1])]
      simp

/-- Inversion of a successful scheme detection: the detected scheme is
non-empty, alphabetic-initial, all scheme characters, and the remainder is
drawn from the input. -/
theorem detectScheme_inv {u pre rest : PyStr} (h : detectScheme u = some (pre, rest)) :
    pre ≠ [] ∧ isAsciiAlpha pre.headI = true ∧ (∀ c ∈ pre, isSchemeChar c = true)
    ∧ ∀ a ∈ rest, a ∈ u := by
  simp only [detectScheme] at h
  cases hd : u.dropWhile (fun c => c != ':') with
  | nil => rw [hd] at h; simp at h
  | cons x xs =>
    rw [hd] at h
    have h' : (if u.takeWhile (fun c => c != ':') ≠ []
          ∧ isAsciiAlpha (u.takeWhile (fun c => c != ':')).headI = true
          ∧ (u.takeWhile (fun c => c != ':')).all isSchemeChar = true
        then some (u.takeWhile (fun c => c != ':'), xs) else none) = some (pre, rest) := h
    by_cases hc : u.takeWhile (fun c => c != ':') ≠ []
        ∧ isAsciiAlpha (u.takeWhile (fun c => c != ':')).headI = true
        ∧ (u.takeWhile (fun c => c != ':')).all isSchemeChar = true
    · rw [if_pos hc] at h'
      have hpre : u.takeWhile (fun c => c != ':') = pre := by
        simpa using congrArg (fun o => (o.getD ([], [])).1) h'
      have hrest : xs = rest := by
        simpa using congrArg (fun o => (o.getD ([], [])).2) h'
      subst hpre hrest
      refine ⟨hc.1, hc.2.1, fun c hcm => List.all_eq_true.mp hc.2.2 c hcm, fun a ha => ?_⟩
      have h1 : a ∈ u.dropWhile (fun c => c != ':') := by
        rw [hd]; exact List.mem_cons_of_mem x ha
      exact (List.dropWhile_sublist _).subset h1
    · rw [if_neg hc] at h'
      simp at h'

/-- A non-empty scheme produced by parsing with the empty default scheme is
well-formed. -/
theorem SchemeOk_of_urlparse {B : PyStr} (h : (urlparse B).scheme ≠ []) :
    SchemeOk ((urlparse B).scheme) := by
  have heq : (urlparse B).scheme = schemeOf [] (cleanUrl B) := rfl
  rw [heq] at h ⊢
  unfold schemeOf at h ⊢
  cases hd : detectScheme (cleanUrl B) with
  | none => rw [hd] at h; exact absurd rfl h
  | some pr =>
    obtain ⟨pre, rest⟩ := pr
    show SchemeOk (lowerStr pre)
    obtain ⟨hne, hhead, hall, _⟩ := detectScheme_inv hd
    refine ⟨by simp [lowerStr, hne], ?_, ?_⟩
    · cases pre with
      | nil => exact absurd rfl hne
      | cons p0 p' => exact isAsciiAlpha_pyLower p0 (by simpa using hhead)
    · intro c hc
      obtain ⟨a, ha, rfl⟩ := List.mem_map.mp hc
      exact isSchemeChar_pyLower a (hall a ha)

/-- The remainder after scheme detection is drawn from the input. -/
theorem restAfterScheme_subset (u : PyStr) : ∀ a ∈ restAfterScheme u, a ∈ u := by
  unfold restAfterScheme
  cases hd : detectScheme u with
  | none => exact fun a ha => ha
  | some pr =>
    obtain ⟨pre, rest⟩ := pr
    exact (detectScheme_inv hd).2.2.2

/-- A non-empty netloc produced by `urlparse` is well-formed. -/
theorem NetlocOk_of_urlparse {L d : PyStr} {af : Bool}
    (h : (urlparse L d af).netloc ≠ []) : NetlocOk ((urlparse L d af).netloc) := by
  have heq : (urlparse L d af).netloc = (netlocPhase (restAfterScheme (cleanUrl L))).1 := rfl
  rw [heq] at h ⊢
  unfold netlocPhase at h ⊢
  by_cases ht : (restAfterScheme (cleanUrl L)).take 2 = ['/', '/']
  · rw [if_pos ht] at h ⊢
    refine ⟨h, fun c hc => ⟨?_, ?_⟩⟩
    · have := List.mem_takeWhile_imp hc
      simpa using this
    · have h2 : c ∈ (restAfterScheme (cleanUrl L)).drop 2 :=
        (List.takeWhile_sublist _).subset hc
      have h3 : c ∈ restAfterScheme (cleanUrl L) := List.drop_subset _ _ h2
      have h4 : c ∈ List.filter (fun c => !isUnsafeUrlChar c) (L.dropWhile isC0OrSpace) :=
        restAfterScheme_subset _ c h3
      simpa using List.of_mem_filter h4
  · rw [if_neg ht] at h
    exact absurd rfl h

/-- Shape of `urlunsplit` output when both scheme and netloc are present. -/
theorem urlunsplit_shape (s : SplitResult) (hsch : s.scheme ≠ []) (hnet : s.netloc ≠ []) :
    ∃ rest, urlunsplit s = s.scheme ++ [':', '/', '/'] ++ s.netloc ++ rest := by
  simp only [urlunsplit]
  rw [if_pos (Or.inl hnet), if_pos hsch]
  set u1 := if s.path ≠ [] ∧ s.path.take 1 ≠ ['/'] then '/' :: s.path else s.path with hu1
  by_cases hq : s.query ≠ []
  · rw [if_pos hq]
    by_cases hf : s.fragment ≠ []
    · rw [if_pos hf]
      exact ⟨u1 ++ '?' :: s.query ++ '#' :: s.fragment, by simp⟩
    · rw [if_neg hf]
      exact ⟨u1 ++ '?' :: s.query, by simp⟩
  · rw [if_neg hq]
    by_cases hf : s.fragment ≠ []
    · rw [if_pos hf]
      exact ⟨u1 ++ '#' :: s.fragment, by simp⟩
    · rw [if_neg hf]
      exact ⟨u1, by simp⟩

/-- Shape of `urlunparse` output when both scheme and netloc are present. -/
theorem urlunparse_shape (p : ParseResult) (hsch : p.scheme ≠ []) (hnet : p.netloc ≠ []) :
    ∃ rest, urlunparse p = p.scheme ++ [':', '/', '/'] ++ p.netloc ++ rest := by
  unfold urlunparse
  exact urlunsplit_shape _ hsch hnet

/-- `_make_absolute` leaves any `urlunparse` image of a record with a
well-formed scheme and netloc unchanged, whatever the base URL. -/
theorem make_absolute_fixes (B : PyStr) (p : ParseResult)
    (hs : SchemeOk p.scheme) (hn : NetlocOk p.netloc) :
    make_absolute B (urlunparse p) = urlunparse p := by
  obtain ⟨rest, hr⟩ := urlunparse_shape p hs.1 hn.1
  have hparse := urlsplit_embed p.scheme p.netloc rest [] true hs hn
  have hnet : (urlparse (urlunparse p)).netloc ≠ [] := by
    rw [hr]; exact hparse.2
  have hsch : (urlparse (urlunparse p)).scheme ≠ [] := by
    rw [hr]
    have h1 : (urlparse (p.scheme ++ [':', '/', '/'] ++ p.netloc ++ rest)).scheme
        = lowerStr p.scheme := hparse.1
    rw [h1]
    simpa [lowerStr] using hs.1
  simp [make_absolute, hnet, hsch]

/-!
### Claim theorems: link resolution
-/

/-- Relative-link branch of `_make_absolute`. -/
theorem make_absolute_netloc_nil {B L : PyStr} (h : (urlparse L).netloc = []) :
    make_absolute B L = urljoin B L := by
  simp [make_absolute, h]

/-- Scheme-inheritance branch of `_make_absolute`. -/
theorem make_absolute_scheme_nil {B L : PyStr} (hn : (urlparse L).netloc ≠ [])
    (hs : (urlparse L).scheme = []) :
    make_absolute B L = urlunparse { urlparse L with scheme := (urlparse B).scheme } := by
  simp [make_absolute, hn, hs]

/-- Already-absolute branch of `_make_absolute`. -/
theorem make_absolute_absolute {B L : PyStr} (hn : (urlparse L).netloc ≠ [])
    (hs : (urlparse L).scheme ≠ []) : make_absolute B L = L := by
  simp [make_absolute, hn, hs]

/-- Every scheme of `uses_relative` is also in `uses_netloc`. -/
theorem usesRelative_subset_usesNetloc : ∀ s ∈ usesRelative, s ∈ usesNetloc := by decide

/-- When the joined URL keeps the base scheme and carries no netloc of its
own, `urljoinCore` returns an `urlunparse` image built from that scheme and
the base netloc. -/
theorem urljoinCore_unparse {url : PyStr} {b u : ParseResult}
    (hsch : u.scheme = b.scheme) (hrel : u.scheme ∈ usesRelative) (hnet : u.netloc = []) :
    ∃ P Pr Q F, urljoinCore url b u = urlunparse ⟨u.scheme, b.netloc, P, Pr, Q, F⟩ := by
  have husesN : u.scheme ∈ usesNetloc := usesRelative_subset_usesNetloc u.scheme hrel
  have hcond1 : ¬(u.scheme ≠ b.scheme ∨ u.scheme ∉ usesRelative) := by
    simp [hsch, hsch ▸ hrel]
  have hcond2 : ¬(u.scheme ∈ usesNetloc ∧ u.netloc ≠ []) := by simp [hnet]
  simp only [urljoinCore]
  rw [if_neg hcond1, if_neg hcond2, if_pos husesN]
  by_cases hp : u.path = [] ∧ u.params = []
  · rw [if_pos hp]
    exact ⟨b.path, b.params, _, u.fragment, rfl⟩
  · rw [if_neg hp]
    exact ⟨joinPath b.path u.path, u.params, u.query, u.fragment, rfl⟩

/-- Entry reduction of `urljoin` on non-empty arguments. -/
theorem urljoin_ne {base url : PyStr} (hb : base ≠ []) (hu : url ≠ []) :
    urljoin base url = urljoinCore url (urlparse base) (urlparse url (urlparse base).scheme) := by
  simp [urljoin, hb, hu]

/-- Joining the empty URL returns the base. -/
theorem urljoin_url_nil {base : PyStr} (hb : base ≠ []) : urljoin base [] = base := by
  simp [urljoin, hb]

/-- Idempotence of `_make_absolute` against a base URL that parses with a
scheme and a network location. -/
theorem make_absolute_idem (B L : PyStr) (hbs : (urlparse B).scheme ≠ [])
    (hbn : (urlparse B).netloc ≠ []) :
    make_absolute B (make_absolute B L) = make_absolute B L := by
  have hBne : B ≠ [] := by
    intro hBnil
    subst hBnil
    exact hbn rfl
  by_cases hn : (urlparse L).netloc = []
  · by_cases hLnil : L = []
    · subst hLnil
      rw [make_absolute_netloc_nil hn, urljoin_url_nil hBne]
      exact make_absolute_absolute hbn hbs
    · by_cases hbr : (urlparse L (urlparse B).scheme).scheme ≠ (urlparse B).scheme
          ∨ (urlparse L (urlparse B).scheme).scheme ∉ usesRelative
      · have hcore : urljoinCore L (urlparse B) (urlparse L (urlparse B).scheme) = L := by
          simp only [urljoinCore]
          rw [if_pos hbr]
        rw [make_absolute_netloc_nil hn, urljoin_ne hBne hLnil, hcore,
          make_absolute_netloc_nil hn, urljoin_ne hBne hLnil, hcore]
      · push_neg at hbr
        obtain ⟨hsch, hrel⟩ := hbr
        have hun : (urlparse L (urlparse B).scheme).netloc = [] := hn
        obtain ⟨P, Pr, Q, F, hEq⟩ := urljoinCore_unparse hsch hrel hun
        rw [make_absolute_netloc_nil hn, urljoin_ne hBne hLnil, hEq]
        have hsOk : SchemeOk (urlparse L (urlparse B).scheme).scheme := by
          rw [hsch]
          exact SchemeOk_of_urlparse hbs
        exact make_absolute_fixes B _ hsOk (NetlocOk_of_urlparse hbn)
  · by_cases hls : (urlparse L).scheme = []
    · rw [make_absolute_scheme_nil hn hls]
      refine make_absolute_fixes B _ ?_ ?_
      · show SchemeOk (urlparse B).scheme
        exact SchemeOk_of_urlparse hbs
      · show NetlocOk (urlparse L).netloc
        exact NetlocOk_of_urlparse hn
    · rw [make_absolute_absolute hn hls]
      exact make_absolute_absolute hn hls

/-- C4 (amended): `_make_absolute` joins links without a network location
against the base URL, prepends the base scheme to links with a netloc but
no scheme, and returns links with both unchanged; it is idempotent whenever
the base URL parses with a non-empty scheme and network location (for a
relative base URL the relative-join branch need not be idempotent). -/
theorem make_absolute_policy :
    (∀ B L : PyStr, (urlparse L).netloc = [] → make_absolute B L = urljoin B L)
    ∧ (∀ B L : PyStr, (urlparse L).netloc ≠ [] → (urlparse L).scheme = [] →
        make_absolute B L = urlunparse { urlparse L with scheme := (urlparse B).scheme })
    ∧ (∀ B L : PyStr, (urlparse L).netloc ≠ [] → (urlparse L).scheme ≠ [] →
        make_absolute B L = L)
    ∧ (∀ B L : PyStr, (urlparse B).scheme ≠ [] → (urlparse B).netloc ≠ [] →
        make_absolute B (make_absolute B L) = make_absolute B L) :=
  ⟨fun _ _ h => make_absolute_netloc_nil h,
   fun _ _ hn hs => make_absolute_scheme_nil hn hs,
   fun _ _ hn hs => make_absolute_absolute hn hs,
   fun B L hbs hbn => make_absolute_idem B L hbs hbn⟩

/-- Witness for `make_absolute_policy`: idempotence at a concrete absolute
base URL and relative link. -/
theorem make_absolute_policy_witness :
    (urlparse (("https://example.org/dir/").data)).scheme ≠ []
    ∧ (urlparse (("https://example.org/dir/").data)).netloc ≠ []
    ∧ make_absolute (("https://example.org/dir/").data)
        (make_absolute (("https://example.org/dir/").data) (("c").data))
      = make_absolute (("https://example.org/dir/").data) (("c").data) :=
  ⟨by decide, by decide, make_absolute_policy.2.2.2 _ _ (by decide) (by decide)⟩

/-- C4 counterexample: for a document whose URL is the relative `a/b`, the
derived base URL is `a/`, and against that base `_make_absolute` is not
idempotent: resolving `c` gives `a/c`, and resolving `a/c` gives `a/a/c`. -/
theorem make_absolute_not_idempotent :
    base_url { url := ("a/b").data, anchors := [], bases := [] } = ("a/").data
    ∧ make_absolute (("a/").data) (("c").data) = ("a/c").data
    ∧ make_absolute (("a/").data) (("a/c").data) = ("a/a/c").data
    ∧ make_absolute (("a/").data) (make_absolute (("a/").data) (("c").data))
        ≠ make_absolute (("a/").data) (("c").data) := by
  refine ⟨by decide, by decide, by decide, by decide⟩

end HttpxHtml

